import Mathlib

/-!
Shallow embedding of the kashish00208/go-learnings repository, covering the
parts the verified claims refer to:

* the finance tracker (`Account`, `AddIncome`, `AddExpense`) from `src/main.go`;
* the sliding-window rate limiter (`RateLimiter`, `Allow`) from
  `src/golang-mini-projects.md`;
* the worker pool (`WorkerPool`, `Submit`, `Close`, `worker`) from
  `src/golang-mini-projects.md`.

Conventions: Go `float64` money amounts are embedded as `ℚ` (all operations
used are exact additions/subtractions/comparisons), `time.Time` and
`time.Duration` as `ℤ` (nanosecond counts), Go `int` as `ℤ` where its value
matters.  A Go method that mutates its receiver becomes a function returning
the updated value; `fmt.Println` output is returned as a `List String`; a Go
`error` result becomes an `Option String`; a send on a closed channel (a Go
panic) becomes an `Except` error.
-/

namespace GoLearnings

/-! ## Finance tracker (`src/main.go`) -/

/-- Transaction record from `src/main.go`.  The Go field `Type` is a reserved
word in Lean, so it is embedded as `Type'`. -/
structure Transaction where
  ID : ℤ
  Amount : ℚ
  Category : String
  Date : ℤ
  Type' : String
deriving DecidableEq

/-- Account record from `src/main.go`. -/
structure Account where
  Name : String
  Balance : ℚ
  Transactions : List Transaction
  nextID : ℤ
deriving DecidableEq

/-- `NewAccount` from `src/main.go`. -/
def newAccount (name : String) (initialBalance : ℚ) : Account :=
  { Name := name, Balance := initialBalance, Transactions := [], nextID := 1 }

/-- `Account.AddIncome` from `src/main.go`.  The Go method returns nothing:
on a non-positive amount it prints "Amount must be positive" and returns
early.  The embedding returns the updated account together with the list of
printed lines; `now` stands for the `time.Now()` call. -/
def addIncome (a : Account) (amount : ℚ) (category : String) (now : ℤ) :
    Account × List String :=
  if amount ≤ 0 then
    (a, ["Amount must be positive"])
  else
    ({ Name := a.Name
       Balance := a.Balance + amount
       Transactions := a.Transactions ++
         [{ ID := a.nextID, Amount := amount, Category := category,
            Date := now, Type' := "income" }]
       nextID := a.nextID + 1 }, [])

/-- `Account.AddExpense` from `src/main.go`.  The Go method returns an
`error`; the embedding returns the updated account and `some msg` for the
error case, `none` for success. -/
def addExpense (a : Account) (amount : ℚ) (category : String) (now : ℤ) :
    Account × Option String :=
  if amount ≤ 0 then
    (a, some "amount must be positive")
  else if amount > a.Balance then
    (a, some "insufficient balance")
  else
    ({ Name := a.Name
       Balance := a.Balance - amount
       Transactions := a.Transactions ++
         [{ ID := a.nextID, Amount := amount, Category := category,
            Date := now, Type' := "expense" }]
       nextID := a.nextID + 1 }, none)

/-- One call in a sequence of finance-tracker operations: the arguments of an
`AddIncome` or `AddExpense` call (the `ℤ` is the `time.Now()` instant). -/
inductive FinOp where
  | income (amount : ℚ) (category : String) (now : ℤ)
  | expense (amount : ℚ) (category : String) (now : ℤ)

/-- Perform one finance-tracker call on an account (the Go methods mutate the
receiver through a pointer, so the caller keeps the returned account). -/
def applyOp (a : Account) : FinOp → Account
  | .income amount category now => (addIncome a amount category now).1
  | .expense amount category now => (addExpense a amount category now).1

/-- Perform a sequence of finance-tracker calls left to right. -/
def applyOps (a : Account) (ops : List FinOp) : Account :=
  ops.foldl applyOp a

/-- Sum of the amounts of the recorded transactions with `Type` `"income"`. -/
def sumIncome (ts : List Transaction) : ℚ :=
  ((ts.filter (fun t => t.Type' == "income")).map Transaction.Amount).sum

/-- Sum of the amounts of the recorded transactions with `Type` `"expense"`. -/
def sumExpense (ts : List Transaction) : ℚ :=
  ((ts.filter (fun t => t.Type' == "expense")).map Transaction.Amount).sum

/-- Net worth bookkeeping quantity: balance minus recorded income plus
recorded expenses.  Each finance-tracker call leaves it unchanged. -/
def acctNet (a : Account) : ℚ :=
  a.Balance - sumIncome a.Transactions + sumExpense a.Transactions

lemma sumIncome_append (ts us : List Transaction) :
    sumIncome (ts ++ us) = sumIncome ts + sumIncome us := by
  simp [sumIncome, List.filter_append]

lemma sumExpense_append (ts us : List Transaction) :
    sumExpense (ts ++ us) = sumExpense ts + sumExpense us := by
  simp [sumExpense, List.filter_append]

lemma sumIncome_singleton (t : Transaction) :
    sumIncome [t] = if t.Type' = "income" then t.Amount else 0 := by
  by_cases h : t.Type' = "income" <;>
    simp [sumIncome, List.filter_cons, h]

lemma sumExpense_singleton (t : Transaction) :
    sumExpense [t] = if t.Type' = "expense" then t.Amount else 0 := by
  by_cases h : t.Type' = "expense" <;>
    simp [sumExpense, List.filter_cons, h]

lemma applyOp_acctNet (a : Account) (op : FinOp) :
    acctNet (applyOp a op) = acctNet a := by
  cases op with
  | income amount category now =>
    by_cases h : amount ≤ 0
    · simp [applyOp, addIncome, h]
    · simp only [applyOp, addIncome, if_neg h]
      unfold acctNet
      rw [sumIncome_append, sumExpense_append, sumIncome_singleton,
        sumExpense_singleton]
      rw [if_pos rfl, if_neg (by simp)]
      ring
  | expense amount category now =>
    by_cases h : amount ≤ 0
    · simp [applyOp, addExpense, h]
    · by_cases h2 : amount > a.Balance
      · simp [applyOp, addExpense, h, h2]
      · simp only [applyOp, addExpense, if_neg h, if_neg h2]
        unfold acctNet
        rw [sumIncome_append, sumExpense_append, sumIncome_singleton,
          sumExpense_singleton]
        rw [if_neg (by simp), if_pos rfl]
        ring

lemma applyOps_acctNet (ops : List FinOp) :
    ∀ a : Account, acctNet (applyOps a ops) = acctNet a := by
  induction ops with
  | nil => intro a; rfl
  | cons op ops ih =>
    intro a
    have : applyOps a (op :: ops) = applyOps (applyOp a op) ops := rfl
    rw [this, ih, applyOp_acctNet]

/-- C4: `AddExpense(500, "food")` on an account with balance 5000 succeeds
(returns `nil`) and reduces the balance to 4500; a subsequent
`AddExpense(6000, "x")` on the same account returns an insufficient-balance
error and leaves the balance unchanged. -/
theorem addExpense_example_sequence :
    (addExpense (newAccount "Savings" 5000) 500 "food" 0).2 = none
    ∧ (addExpense (newAccount "Savings" 5000) 500 "food" 0).1.Balance = 4500
    ∧ (addExpense (addExpense (newAccount "Savings" 5000) 500 "food" 0).1
        6000 "x" 1).2 = some "insufficient balance"
    ∧ (addExpense (addExpense (newAccount "Savings" 5000) 500 "food" 0).1
        6000 "x" 1).1.Balance = 4500 := by
  refine ⟨rfl, by norm_num [addExpense, newAccount], ?_, ?_⟩ <;>
    norm_num [addExpense, newAccount]

/-- C9 (counterexample): `AddIncome` on a non-positive amount does not return
an "invalid input" error value to its caller.  The Go method `AddIncome` has
no error result at all (`func (a *Account) AddIncome(float64, string)`); at
amount `-5` it leaves the account unchanged and reports the rejection only by
printing "Amount must be positive", so the caller receives no error value. -/
theorem addIncome_no_error_value :
    addIncome (newAccount "A" 100) (-5) "x" 0
      = (newAccount "A" 100, ["Amount must be positive"]) := by
  norm_num [addIncome, newAccount]

/-- C9 (amended): for every amount ≤ 0, `AddExpense` reports the rejection as
a returned "amount must be positive" error value, while `AddIncome` — which
has no error return — reports it by printing "Amount must be positive" and
leaving the account unchanged. -/
theorem nonpositive_amount_reporting (a : Account) (amount : ℚ)
    (category : String) (now : ℤ) (h : amount ≤ 0) :
    addExpense a amount category now = (a, some "amount must be positive")
    ∧ addIncome a amount category now = (a, ["Amount must be positive"]) := by
  constructor
  · unfold addExpense
    rw [if_pos h]
  · unfold addIncome
    rw [if_pos h]

/-- C9 witness: the amended claim instantiated at amount `-1`. -/
theorem nonpositive_amount_reporting_witness :
    addExpense (newAccount "A" 100) (-1) "x" 0
      = (newAccount "A" 100, some "amount must be positive")
    ∧ addIncome (newAccount "A" 100) (-1) "x" 0
      = (newAccount "A" 100, ["Amount must be positive"]) :=
  nonpositive_amount_reporting (newAccount "A" 100) (-1) "x" 0 (by norm_num)

/-- C10: after any sequence of `AddIncome`/`AddExpense` calls on an account
created by `NewAccount`, the balance equals the initial balance plus the sum
of recorded "income" transaction amounts minus the sum of recorded "expense"
transaction amounts. -/
theorem balance_equals_initial_plus_net (name : String) (init : ℚ)
    (ops : List FinOp) :
    (applyOps (newAccount name init) ops).Balance
      = init + sumIncome (applyOps (newAccount name init) ops).Transactions
             - sumExpense (applyOps (newAccount name init) ops).Transactions := by
  have h := applyOps_acctNet ops (newAccount name init)
  have h0 : acctNet (newAccount name init) = init := by
    simp [acctNet, newAccount, sumIncome, sumExpense]
  rw [h0] at h
  unfold acctNet at h
  linarith

/-! ## Rate limiter (`src/golang-mini-projects.md`, section 13 mini-project)

The Go struct also carries a `sync.Mutex`; `Allow` runs entirely under that
lock, so a sequence of `Allow` calls is embedded as a sequential fold.  Times
and the window are `int64` nanosecond counts, embedded as `ℤ`. -/

/-- `RateLimiter` struct from the markdown (the mutex carries no data and is
omitted; all calls are serialized by it). -/
structure RateLimiter where
  maxRequests : ℤ
  window : ℤ
  requests : List ℤ
deriving DecidableEq

/-- `NewRateLimiter` from the markdown. -/
def newRateLimiter (maxRequests window : ℤ) : RateLimiter :=
  { maxRequests := maxRequests, window := window, requests := [] }

/-- The trim loop of `Allow`, transliterated: `validIdx := 0; for i, t :=
range rl.requests { if now.Sub(t) <= rl.window { validIdx = i; break } }`.
The accumulator `i` is the current index; if no still-valid timestamp is
found the loop leaves `validIdx` at `0`. -/
def validIdxGo (now w : ℤ) : List ℤ → ℕ → ℕ
  | [], _ => 0
  | t :: rest, i => if now - t ≤ w then i else validIdxGo now w rest (i + 1)

/-- The trim step of `Allow`: `rl.requests = rl.requests[validIdx:]`. -/
def trimOld (now w : ℤ) (reqs : List ℤ) : List ℤ :=
  reqs.drop (validIdxGo now w reqs 0)

/-- `RateLimiter.Allow` from the markdown: trim the recorded timestamps with
the `validIdx` loop, then admit (recording `now`) iff fewer than
`maxRequests` timestamps remain. -/
def allow (rl : RateLimiter) (now : ℤ) : Bool × RateLimiter :=
  let reqs := trimOld now rl.window rl.requests
  if (reqs.length : ℤ) < rl.maxRequests then
    (true, { rl with requests := reqs ++ [now] })
  else
    (false, { rl with requests := reqs })

/-- Run a sequence of `Allow` calls at the given times; returns the final
limiter state and the list of returned booleans, in call order. -/
def runAllow (rl : RateLimiter) : List ℤ → RateLimiter × List Bool
  | [] => (rl, [])
  | t :: ts =>
    let r := allow rl t
    let rest := runAllow r.2 ts
    (rest.1, r.1 :: rest.2)

/-- The times of the admitted calls (those on which `Allow` returned true)
of a sequence of `Allow` calls at the given times. -/
def runAdmitted (rl : RateLimiter) : List ℤ → List ℤ
  | [] => []
  | t :: ts =>
    let r := allow rl t
    if r.1 then t :: runAdmitted r.2 ts else runAdmitted r.2 ts

/-- Reference admission algorithm, following the spec's words: "discard all
recorded timestamps older than `now - window`; if the remaining count is
below `maxRequests`, record `now` and return admitted; otherwise return
rejected" (a timestamp `t` older than `now - window` is one with
`now - t > window`). -/
def allowRef (rl : RateLimiter) (now : ℤ) : Bool × RateLimiter :=
  let reqs := rl.requests.filter (fun t => decide (now - t ≤ rl.window))
  if (reqs.length : ℤ) < rl.maxRequests then
    (true, { rl with requests := reqs ++ [now] })
  else
    (false, { rl with requests := reqs })

/-- Run a sequence of reference-algorithm admission checks. -/
def runAllowRef (rl : RateLimiter) : List ℤ → RateLimiter × List Bool
  | [] => (rl, [])
  | t :: ts =>
    let r := allowRef rl t
    let rest := runAllowRef r.2 ts
    (rest.1, r.1 :: rest.2)

/-- Index of the first element satisfying `p`, if any: specification-side
counterpart of the `validIdx` loop. -/
def firstIdxP (p : ℤ → Bool) : List ℤ → Option ℕ
  | [] => none
  | t :: rest => if p t then some 0 else (firstIdxP p rest).map (· + 1)

/-- The trim the claim C6 describes: drop everything before the first
still-valid timestamp; in particular, when no timestamp is still valid the
whole sequence is dropped. -/
def trimClaimed (now w : ℤ) (reqs : List ℤ) : List ℤ :=
  match firstIdxP (fun t => decide (now - t ≤ w)) reqs with
  | some k => reqs.drop k
  | none => []

lemma validIdxGo_cons (now w t : ℤ) (rest : List ℤ) (i : ℕ) :
    validIdxGo now w (t :: rest) i
      = if now - t ≤ w then i else validIdxGo now w rest (i + 1) := rfl

lemma firstIdxP_cons (p : ℤ → Bool) (t : ℤ) (rest : List ℤ) :
    firstIdxP p (t :: rest)
      = if p t then some 0 else (firstIdxP p rest).map (· + 1) := rfl

lemma validIdxGo_eq_firstIdxP (now w : ℤ) (reqs : List ℤ) :
    ∀ i : ℕ, validIdxGo now w reqs i
      = match firstIdxP (fun t => decide (now - t ≤ w)) reqs with
        | some k => i + k
        | none => 0 := by
  induction reqs with
  | nil => intro i; rfl
  | cons t rest ih =>
    intro i
    rw [validIdxGo_cons, firstIdxP_cons]
    by_cases h : now - t ≤ w
    · rw [if_pos h, if_pos (by simpa using h)]
      rfl
    · rw [if_neg h, if_neg (by simpa using h), ih (i + 1)]
      cases hf : firstIdxP (fun t => decide (now - t ≤ w)) rest with
      | none => rfl
      | some k =>
        show i + 1 + k = i + (k + 1)
        omega

lemma firstIdxP_none_expired (now w : ℤ) : ∀ reqs : List ℤ,
    firstIdxP (fun t => decide (now - t ≤ w)) reqs = none →
    ∀ t ∈ reqs, w < now - t := by
  intro reqs
  induction reqs with
  | nil => intro _ t ht; cases ht
  | cons a rest ih =>
    intro h t ht
    rw [firstIdxP_cons] at h
    rw [List.mem_cons] at ht
    by_cases ha : now - a ≤ w
    · rw [if_pos (by simpa using ha)] at h
      cases h
    · rw [if_neg (by simpa using ha)] at h
      have hrest : firstIdxP (fun t => decide (now - t ≤ w)) rest = none := by
        cases hf : firstIdxP (fun t => decide (now - t ≤ w)) rest with
        | none => rfl
        | some k =>
          rw [hf, Option.map_some'] at h
          cases h
      rcases ht with rfl | ht
      · omega
      · exact ih hrest t ht

lemma firstIdxP_take_expired (now w : ℤ) : ∀ (reqs : List ℤ) (k : ℕ),
    firstIdxP (fun t => decide (now - t ≤ w)) reqs = some k →
    ∀ t ∈ reqs.take k, w < now - t := by
  intro reqs
  induction reqs with
  | nil => intro k _ t ht; simp at ht
  | cons a rest ih =>
    intro k h t ht
    rw [firstIdxP_cons] at h
    by_cases ha : now - a ≤ w
    · rw [if_pos (by simpa using ha)] at h
      injection h with h
      subst h
      simp at ht
    · rw [if_neg (by simpa using ha)] at h
      cases hf : firstIdxP (fun t => decide (now - t ≤ w)) rest with
      | none =>
        rw [hf] at h
        cases h
      | some k' =>
        rw [hf, Option.map_some'] at h
        injection h with h
        subst h
        rw [List.take_succ_cons, List.mem_cons] at ht
        rcases ht with rfl | ht
        · omega
        · exact ih k' hf t ht

lemma firstIdxP_isSome_of_exists (now w : ℤ) : ∀ reqs : List ℤ,
    (∃ t ∈ reqs, now - t ≤ w) →
    ∃ k, firstIdxP (fun t => decide (now - t ≤ w)) reqs = some k := by
  intro reqs
  induction reqs with
  | nil =>
    rintro ⟨t, ht, _⟩
    cases ht
  | cons a rest ih =>
    intro h
    by_cases ha : now - a ≤ w
    · refine ⟨0, ?_⟩
      rw [firstIdxP_cons, if_pos (by simpa using ha)]
    · rcases h with ⟨t, ht, htv⟩
      rw [List.mem_cons] at ht
      rcases ht with rfl | ht
      · exact absurd htv ha
      · rcases ih ⟨t, ht, htv⟩ with ⟨k, hk⟩
        refine ⟨k + 1, ?_⟩
        rw [firstIdxP_cons, if_neg (by simpa using ha), hk]
        rfl

/-- Every timestamp the trim step removes had already expired. -/
lemma trimOld_dropped_expired (now w : ℤ) (reqs : List ℤ) :
    ∀ t ∈ reqs.take (validIdxGo now w reqs 0), w < now - t := by
  rw [validIdxGo_eq_firstIdxP]
  cases hf : firstIdxP (fun t => decide (now - t ≤ w)) reqs with
  | none =>
    intro t ht
    cases ht
  | some k =>
    intro t ht
    have ht' : t ∈ reqs.take k := by
      have h0 : t ∈ reqs.take (0 + k) := ht
      rwa [Nat.zero_add] at h0
    exact firstIdxP_take_expired now w reqs k hf t ht'

/-- C7: with `maxRequests = 5` and `window = 1s` (10^9 ns), ten `Allow`
calls at the same instant return true for the first five and false for the
last five. -/
theorem ten_immediate_calls_admit_five :
    (runAllow (newRateLimiter 5 1000000000) (List.replicate 10 0)).2
      = [true, true, true, true, true, false, false, false, false, false] := by
  decide

/-- C3 (divergence witness): with `maxRequests = 1`, `window = 1`, calls at
times 0 and 2, the source's `Allow` rejects the second call (its trim loop
finds no still-valid timestamp, leaves `validIdx = 0`, and so keeps the
expired timestamp 0), while the spec's reference algorithm discards the
expired timestamp and admits it. -/
theorem allow_trim_divergence :
    (runAllow (newRateLimiter 1 1) [0, 2]).2 = [true, false]
    ∧ (runAllowRef (newRateLimiter 1 1) [0, 2]).2 = [true, true]
    ∧ (runAllow (newRateLimiter 1 1) [0, 2]).1.requests = [0]
    ∧ (runAllowRef (newRateLimiter 1 1) [0, 2]).1.requests = [2] := by
  decide

/-- C6 (counterexample): the retained sequence is not always the suffix
beginning at the first still-valid timestamp.  With recorded timestamps
`[0]`, `window = 1` and `now = 10` no timestamp is still valid, so that
suffix is empty, yet the code's trim retains `[0]` (the loop never sets
`validIdx`, which stays 0). -/
theorem trim_not_suffix_at_first_valid :
    trimOld 10 1 [0] = [0]
    ∧ trimClaimed 10 1 [0] = []
    ∧ trimOld 10 1 [0] ≠ trimClaimed 10 1 [0]
    ∧ (allow { maxRequests := 5, window := 1, requests := [0] } 10).2.requests
        = [0, 10] := by
  decide

/-- C6 (amended): on every `Allow` call, when at least one recorded
timestamp is still valid the sequence retained before the admission check is
the suffix beginning at the first still-valid timestamp; when none is valid
(and in particular whenever the record is nonempty but fully expired) the
entire recorded sequence is retained unchanged — the loop removes nothing.
Afterwards `Allow` appends `now` to the retained sequence iff it admits. -/
theorem trim_suffix_characterization (rl : RateLimiter) (now : ℤ) :
    ((∃ k, firstIdxP (fun t => decide (now - t ≤ rl.window)) rl.requests
        = some k
      ∧ trimOld now rl.window rl.requests = rl.requests.drop k)
     ∨ (firstIdxP (fun t => decide (now - t ≤ rl.window)) rl.requests = none
      ∧ trimOld now rl.window rl.requests = rl.requests))
    ∧ (allow rl now).2.requests
      = (if ((trimOld now rl.window rl.requests).length : ℤ) < rl.maxRequests
         then trimOld now rl.window rl.requests ++ [now]
         else trimOld now rl.window rl.requests) := by
  constructor
  · unfold trimOld
    rw [validIdxGo_eq_firstIdxP]
    cases hf : firstIdxP (fun t => decide (now - t ≤ rl.window)) rl.requests with
    | none => exact Or.inr ⟨rfl, by simp⟩
    | some k => exact Or.inl ⟨k, rfl, by simp⟩
  · unfold allow
    by_cases h : ((trimOld now rl.window rl.requests).length : ℤ) < rl.maxRequests
    · simp [h]
    · simp [h]

/-- C6 witness: the amended characterization instantiated at a state with
one valid and one expired timestamp. -/
theorem trim_suffix_characterization_witness :
    ((∃ k, firstIdxP (fun t => decide ((10 : ℤ) - t ≤ 3))
        ({ maxRequests := 1, window := 3,
           requests := [0, 8] } : RateLimiter).requests = some k
      ∧ trimOld 10 3 [0, 8] = List.drop k [0, 8])
     ∨ (firstIdxP (fun t => decide ((10 : ℤ) - t ≤ 3)) [0, 8] = none
      ∧ trimOld 10 3 [0, 8] = [0, 8]))
    ∧ (allow { maxRequests := 1, window := 3, requests := [0, 8] } 10).2.requests
      = (if ((trimOld 10 3 [0, 8]).length : ℤ) < 1
         then trimOld 10 3 [0, 8] ++ [10]
         else trimOld 10 3 [0, 8]) :=
  trim_suffix_characterization
    { maxRequests := 1, window := 3, requests := [0, 8] } 10

/-- C5 (counterexample): retained timestamps do not always lie within the
trailing window.  With `maxRequests = 1`, `window = 1` and `Allow` calls at
times 0 and 10, the final state retains the timestamp 0 even though
`10 - 0 > 1`. -/
theorem retained_timestamp_outside_window :
    (runAllow (newRateLimiter 1 1) [0, 10]).1.requests = [0]
    ∧ ¬ (∀ t ∈ (runAllow (newRateLimiter 1 1) [0, 10]).1.requests,
          (10 : ℤ) - t ≤ 1) := by
  decide

/-- When a sorted record holds at least one still-valid timestamp, the trim
step retains only still-valid timestamps. -/
lemma trimOld_valid_of_exists (now w : ℤ) :
    ∀ l : List ℤ, l.Pairwise (· ≤ ·) → (∃ t ∈ l, now - t ≤ w) →
      ∀ t ∈ trimOld now w l, now - t ≤ w := by
  intro l
  induction l with
  | nil =>
    rintro _ ⟨t, ht, _⟩
    cases ht
  | cons a rest ih =>
    intro hsorted hex
    by_cases ha : now - a ≤ w
    · have h0 : validIdxGo now w (a :: rest) 0 = 0 := by
        rw [validIdxGo_cons, if_pos ha]
      unfold trimOld
      rw [h0, List.drop_zero]
      intro t ht
      rw [List.mem_cons] at ht
      rcases ht with rfl | ht
      · omega
      · have hle : a ≤ t := (List.pairwise_cons.mp hsorted).1 t ht
        omega
    · have hexr : ∃ t ∈ rest, now - t ≤ w := by
        rcases hex with ⟨t, ht, htv⟩
        rw [List.mem_cons] at ht
        rcases ht with rfl | ht
        · exact absurd htv ha
        · exact ⟨t, ht, htv⟩
      rcases firstIdxP_isSome_of_exists now w rest hexr with ⟨k, hk⟩
      have heq : trimOld now w (a :: rest) = trimOld now w rest := by
        unfold trimOld
        rw [show validIdxGo now w (a :: rest) 0 = validIdxGo now w rest 1 from
          by rw [validIdxGo_cons, if_neg ha]]
        rw [validIdxGo_eq_firstIdxP now w rest 1,
          validIdxGo_eq_firstIdxP now w rest 0, hk]
        show (a :: rest).drop (1 + k) = rest.drop (0 + k)
        rw [Nat.add_comm 1 k, List.drop_succ_cons, Nat.zero_add]
      rw [heq]
      exact ih (List.pairwise_cons.mp hsorted).2 hexr

/-- C5 (amended): after an `Allow` call at time `now` on a state whose
recorded timestamps are nondecreasing (as in every reachable state), if the
window is nonnegative and the record was empty or held at least one
still-valid timestamp, then every retained timestamp `t` satisfies
`now - t ≤ window`.  (When the record is nonempty but fully expired, the
expired timestamps are retained — the counterexample above.) -/
theorem retained_within_window_of_some_valid (rl : RateLimiter) (now : ℤ)
    (hw : 0 ≤ rl.window)
    (hsorted : rl.requests.Pairwise (· ≤ ·))
    (hvalid : rl.requests = [] ∨ ∃ t ∈ rl.requests, now - t ≤ rl.window) :
    ∀ t ∈ (allow rl now).2.requests, now - t ≤ rl.window := by
  have htrim : ∀ t ∈ trimOld now rl.window rl.requests,
      now - t ≤ rl.window := by
    rcases hvalid with hnil | hex
    · rw [hnil]
      intro t ht
      simp [trimOld, validIdxGo] at ht
    · exact trimOld_valid_of_exists now rl.window rl.requests hsorted hex
  intro t ht
  unfold allow at ht
  by_cases h : ((trimOld now rl.window rl.requests).length : ℤ) < rl.maxRequests
  · simp only [if_pos h] at ht
    rcases List.mem_append.mp ht with ht | ht
    · exact htrim t ht
    · simp at ht
      subst ht
      omega
  · simp only [if_neg h] at ht
    exact htrim t ht

/-- The sliding-window admission bound: at most `M` admitted timestamps fall
inside any trailing window `[T - w, T]`. -/
def Good (M w : ℤ) (A : List ℤ) : Prop :=
  ∀ T : ℤ, (A.countP (fun t => decide (T - w ≤ t ∧ t ≤ T)) : ℤ) ≤ M

/-- Main invariant for the rate limiter: running `Allow` at nondecreasing
times from a state whose retained list `reqs` is the live suffix of the
admitted history `D ++ reqs` (every timestamp in the discarded part `D`
already expired) preserves the window bound for the whole admitted
history. -/
lemma run_good (M w : ℤ) : ∀ (times D reqs : List ℤ) (lastNow : ℤ),
    (lastNow :: times).Pairwise (· ≤ ·) →
    (∀ t ∈ D, w < lastNow - t) →
    Good M w (D ++ reqs) →
    Good M w ((D ++ reqs) ++ runAdmitted ⟨M, w, reqs⟩ times) := by
  intro times
  induction times with
  | nil =>
    intro D reqs lastNow _ _ hgood
    simpa [runAdmitted] using hgood
  | cons now ts ih =>
    intro D reqs lastNow hpair hD hgood
    have hlast : lastNow ≤ now :=
      (List.pairwise_cons.mp hpair).1 now (List.mem_cons_self now ts)
    have hpair' : (now :: ts).Pairwise (· ≤ ·) :=
      (List.pairwise_cons.mp hpair).2
    have hD' : ∀ t ∈ D ++ reqs.take (validIdxGo now w reqs 0),
        w < now - t := by
      intro t ht
      rcases List.mem_append.mp ht with ht | ht
      · have := hD t ht
        omega
      · exact trimOld_dropped_expired now w reqs t ht
    have hAeq : D ++ reqs
        = (D ++ reqs.take (validIdxGo now w reqs 0)) ++ trimOld now w reqs := by
      show D ++ reqs
        = (D ++ reqs.take (validIdxGo now w reqs 0))
            ++ reqs.drop (validIdxGo now w reqs 0)
      rw [List.append_assoc, List.take_append_drop]
    by_cases hadm : ((trimOld now w reqs).length : ℤ) < M
    · have hallow : allow ⟨M, w, reqs⟩ now
          = (true, ⟨M, w, trimOld now w reqs ++ [now]⟩) := by
        show (if ((trimOld now w reqs).length : ℤ) < M
              then ((true : Bool), (⟨M, w, trimOld now w reqs ++ [now]⟩ : RateLimiter))
              else ((false : Bool), (⟨M, w, trimOld now w reqs⟩ : RateLimiter)))
            = (true, ⟨M, w, trimOld now w reqs ++ [now]⟩)
        rw [if_pos hadm]
      have hrun : runAdmitted ⟨M, w, reqs⟩ (now :: ts)
          = now :: runAdmitted ⟨M, w, trimOld now w reqs ++ [now]⟩ ts := by
        show (if (allow ⟨M, w, reqs⟩ now).1
              then now :: runAdmitted (allow ⟨M, w, reqs⟩ now).2 ts
              else runAdmitted (allow ⟨M, w, reqs⟩ now).2 ts)
            = now :: runAdmitted ⟨M, w, trimOld now w reqs ++ [now]⟩ ts
        rw [hallow]
        rfl
      have hcount : ((D ++ reqs).countP (fun t => decide (now - t ≤ w)) : ℤ)
          < M := by
        rw [hAeq, List.countP_append]
        have hz : (D ++ reqs.take (validIdxGo now w reqs 0)).countP
            (fun t => decide (now - t ≤ w)) = 0 := by
          apply List.countP_eq_zero.mpr
          intro t ht
          have := hD' t ht
          simp only [decide_eq_true_eq]
          omega
        have hle : (trimOld now w reqs).countP (fun t => decide (now - t ≤ w))
            ≤ (trimOld now w reqs).length := List.countP_le_length _
        omega
      have hgood' : Good M w ((D ++ reqs) ++ [now]) := by
        intro T
        rw [List.countP_append]
        by_cases hc : T - w ≤ now ∧ now ≤ T
        · have h1 : List.countP (fun t => decide (T - w ≤ t ∧ t ≤ T)) [now]
              = 1 := by
            rw [List.countP_singleton, if_pos (by exact decide_eq_true hc)]
          rw [h1]
          have h2 : (D ++ reqs).countP (fun t => decide (T - w ≤ t ∧ t ≤ T))
              ≤ (D ++ reqs).countP (fun t => decide (now - t ≤ w)) := by
            apply List.countP_mono_left
            intro x _ hpx
            simp only [decide_eq_true_eq] at hpx ⊢
            omega
          omega
        · have h1 : List.countP (fun t => decide (T - w ≤ t ∧ t ≤ T)) [now]
              = 0 := by
            rw [List.countP_singleton, if_neg]
            rw [decide_eq_false hc]
            exact Bool.false_ne_true
          rw [h1]
          have := hgood T
          omega
      have hres := ih (D ++ reqs.take (validIdxGo now w reqs 0))
        (trimOld now w reqs ++ [now]) now hpair' hD'
        (by
          have hlist : (D ++ reqs.take (validIdxGo now w reqs 0))
              ++ (trimOld now w reqs ++ [now]) = (D ++ reqs) ++ [now] := by
            rw [hAeq]
            simp [List.append_assoc]
          rw [hlist]
          exact hgood')
      intro T
      have hlist2 : ((D ++ reqs.take (validIdxGo now w reqs 0))
            ++ (trimOld now w reqs ++ [now]))
            ++ runAdmitted ⟨M, w, trimOld now w reqs ++ [now]⟩ ts
          = (D ++ reqs)
            ++ runAdmitted ⟨M, w, reqs⟩ (now :: ts) := by
        rw [hrun, hAeq]
        simp [List.append_assoc]
      rw [← hlist2]
      exact hres T
    · have hallow : allow ⟨M, w, reqs⟩ now
          = (false, ⟨M, w, trimOld now w reqs⟩) := by
        show (if ((trimOld now w reqs).length : ℤ) < M
              then ((true : Bool), (⟨M, w, trimOld now w reqs ++ [now]⟩ : RateLimiter))
              else ((false : Bool), (⟨M, w, trimOld now w reqs⟩ : RateLimiter)))
            = (false, ⟨M, w, trimOld now w reqs⟩)
        rw [if_neg hadm]
      have hrun : runAdmitted ⟨M, w, reqs⟩ (now :: ts)
          = runAdmitted ⟨M, w, trimOld now w reqs⟩ ts := by
        show (if (allow ⟨M, w, reqs⟩ now).1
              then now :: runAdmitted (allow ⟨M, w, reqs⟩ now).2 ts
              else runAdmitted (allow ⟨M, w, reqs⟩ now).2 ts)
            = runAdmitted ⟨M, w, trimOld now w reqs⟩ ts
        rw [hallow]
        rfl
      have hres := ih (D ++ reqs.take (validIdxGo now w reqs 0))
        (trimOld now w reqs) now hpair' hD' (by rw [← hAeq]; exact hgood)
      intro T
      have hlist2 : ((D ++ reqs.take (validIdxGo now w reqs 0))
            ++ trimOld now w reqs)
            ++ runAdmitted ⟨M, w, trimOld now w reqs⟩ ts
          = (D ++ reqs) ++ runAdmitted ⟨M, w, reqs⟩ (now :: ts) := by
        rw [hrun, ← hAeq]
      rw [← hlist2]
      exact hres T

/-- C1: for every sequence of `Allow` calls at nondecreasing times on a
fresh rate limiter with a nonnegative request quota, and for every trailing
window `[T - window, T]`, the number of admitted call times falling inside
that window never exceeds `maxRequests`. -/
theorem rateLimiter_sliding_window_bound (M w T : ℤ) (times : List ℤ)
    (hM : 0 ≤ M) (hmono : times.Pairwise (· ≤ ·)) :
    ((runAdmitted (newRateLimiter M w) times).countP
      (fun t => decide (T - w ≤ t ∧ t ≤ T)) : ℤ) ≤ M := by
  cases times with
  | nil => simpa [runAdmitted, newRateLimiter] using hM
  | cons t0 ts =>
    have hpair : (t0 :: t0 :: ts).Pairwise (· ≤ ·) := by
      rw [List.pairwise_cons]
      refine ⟨fun b hb => ?_, hmono⟩
      rcases List.mem_cons.mp hb with rfl | hb
      · exact le_rfl
      · exact (List.pairwise_cons.mp hmono).1 b hb
    have h := run_good M w (t0 :: ts) [] [] t0 hpair
      (by intro t ht; cases ht)
      (by intro T'; simpa using hM)
    have h2 := h T
    simpa [newRateLimiter] using h2

/-- C1 witness: quota 1, window 1, calls at times 0, 0 and 2; the window
`[1, 2]` contains at most one admitted time. -/
theorem rateLimiter_sliding_window_bound_witness :
    ((runAdmitted (newRateLimiter 1 1) [0, 0, 2]).countP
      (fun t => decide ((2 : ℤ) - 1 ≤ t ∧ t ≤ 2)) : ℤ) ≤ 1 :=
  rateLimiter_sliding_window_bound 1 1 2 [0, 0, 2] (by decide) (by decide)

/-- C5 witness: one valid recorded timestamp, rejected call; the retained
timestamp 5 is within the window at `now = 6`. -/
theorem retained_within_window_of_some_valid_witness :
    5 ∈ (allow { maxRequests := 1, window := 2, requests := [5] } 6).2.requests
    ∧ (6 : ℤ) - 5 ≤ 2 :=
  ⟨by decide,
   retained_within_window_of_some_valid
     { maxRequests := 1, window := 2, requests := [5] } 6 (by decide)
     (by decide) (Or.inr ⟨5, by decide, by decide⟩) 5 (by decide)⟩

/-! ## Worker pool (`src/golang-mini-projects.md`, section 12 mini-project)

The pool's channels and goroutines are embedded as an interleaving
transition system: the `jobs` channel content is `pending`, the jobs a
worker has received but whose result it has not yet sent are `inFlight`
(a multiset — workers are interchangeable), and the `results` channel
content is `results`.  A worker's loop body is split into its two
synchronization points: receiving a job and sending a result.  Channel
capacities only affect blocking, never which values are delivered, so they
do not appear.  `closed` records whether `Close` has closed the `jobs`
channel; a send on a closed channel is a Go panic, embedded as an `Except`
error. -/

/-- `Job` struct from the markdown. -/
structure Job where
  ID : ℤ
  Data : String
deriving DecidableEq

/-- `Result` struct from the markdown. -/
structure Result where
  JobID : ℤ
  Data : String
deriving DecidableEq

/-- The processing a worker applies to one job:
`Result{JobID: job.ID, Data: job.Data + " processed"}`. -/
def process (j : Job) : Result :=
  { JobID := j.ID, Data := j.Data ++ " processed" }

/-- Interleaving state of a worker pool. -/
structure PoolState where
  pending : List Job
  inFlight : Multiset Job
  results : List Result
  closed : Bool

/-- Pool state after `NewWorkerPool` and the submission of `jobs`. -/
def initPool (jobs : List Job) : PoolState :=
  { pending := jobs, inFlight := 0, results := [], closed := false }

/-- One worker synchronization step: either a worker receives the job at the
head of the `jobs` channel, or a worker holding a job sends its result. -/
inductive PStep : PoolState → PoolState → Prop where
  | take (s : PoolState) (j : Job) (rest : List Job)
      (h : s.pending = j :: rest) :
      PStep s { pending := rest, inFlight := j ::ₘ s.inFlight,
                results := s.results, closed := s.closed }
  | publish (s : PoolState) (j : Job) (rest : Multiset Job)
      (h : s.inFlight = j ::ₘ rest) :
      PStep s { pending := s.pending, inFlight := rest,
                results := s.results ++ [process j], closed := s.closed }

/-- Any interleaving of worker steps. -/
def PoolReachable : PoolState → PoolState → Prop :=
  Relation.ReflTransGen PStep

/-- `WorkerPool.Submit` from the markdown: `wp.jobs <- job`.  Sending on the
`jobs` channel after `Close` has closed it is a Go runtime panic ("send on
closed channel"), embedded as the error case; otherwise the job is
enqueued. -/
def Submit (s : PoolState) (j : Job) : Except String PoolState :=
  if s.closed then Except.error "send on closed channel"
  else Except.ok { s with pending := s.pending ++ [j] }

/-- `WorkerPool.Close` from the markdown: closes the `jobs` channel (then
waits for the workers and closes `results`, which carries no state here). -/
def closePool (s : PoolState) : PoolState :=
  { s with closed := true }

/-- The conserved bag of a pool state: results already produced plus the
results the pending and in-flight jobs will produce. -/
def poolBag (s : PoolState) : Multiset Result :=
  Multiset.map process ((↑s.pending : Multiset Job) + s.inFlight)
    + (↑s.results : Multiset Result)

lemma pstep_poolBag {s s' : PoolState} (h : PStep s s') :
    poolBag s' = poolBag s := by
  cases h with
  | take j rest hp =>
    show Multiset.map process ((↑rest : Multiset Job) + (j ::ₘ s.inFlight))
        + (↑s.results : Multiset Result)
      = Multiset.map process ((↑s.pending : Multiset Job) + s.inFlight)
        + (↑s.results : Multiset Result)
    rw [hp, ← Multiset.cons_coe, Multiset.cons_add, Multiset.add_cons]
  | publish j rest hf =>
    show Multiset.map process ((↑s.pending : Multiset Job) + rest)
        + (↑(s.results ++ [process j]) : Multiset Result)
      = Multiset.map process ((↑s.pending : Multiset Job) + s.inFlight)
        + (↑s.results : Multiset Result)
    rw [hf, Multiset.add_cons, Multiset.map_cons, ← Multiset.coe_add,
      Multiset.coe_singleton, ← Multiset.singleton_add]
    abel

lemma reachable_poolBag {s s' : PoolState} (h : PoolReachable s s') :
    poolBag s' = poolBag s := by
  induction h with
  | refl => rfl
  | tail _ hstep ih => rw [pstep_poolBag hstep, ih]

/-- C2: from the state in which `N` jobs have been submitted, after any
interleaving of worker steps that drains the job queue and finishes all
in-flight jobs (which is what `Close()` waits for), the result queue holds
exactly `N` results; the multiset of result job-IDs is exactly the multiset
of submitted job-IDs, and when the submitted IDs are distinct each appears
in the results exactly once — no loss, no duplication. -/
theorem workerPool_drain_results (jobs : List Job) (s : PoolState)
    (hreach : PoolReachable (initPool jobs) s)
    (hpend : s.pending = []) (hflight : s.inFlight = 0) :
    s.results.length = jobs.length
    ∧ (s.results.map Result.JobID).Perm (jobs.map Job.ID)
    ∧ (((jobs.map Job.ID).Nodup →
        ∀ j ∈ jobs, (s.results.map Result.JobID).count j.ID = 1)) := by
  have hbag := reachable_poolBag hreach
  have hres : (↑s.results : Multiset Result) = Multiset.map process ↑jobs := by
    unfold poolBag initPool at hbag
    rw [hpend, hflight] at hbag
    simpa using hbag
  have hperm : s.results.Perm (jobs.map process) := by
    rw [← Multiset.coe_eq_coe, hres]
    rfl
  have hpermIds : (s.results.map Result.JobID).Perm (jobs.map Job.ID) := by
    have h2 := hperm.map Result.JobID
    rw [List.map_map] at h2
    have h3 : (Result.JobID ∘ process) = Job.ID := funext fun j => rfl
    rw [h3] at h2
    exact h2
  refine ⟨?_, hpermIds, ?_⟩
  · have := hperm.length_eq
    simpa using this
  · intro hnodup j hj
    rw [hpermIds.count_eq]
    exact List.count_eq_one_of_mem hnodup (List.mem_map_of_mem Job.ID hj)

def wJob0 : Job := { ID := 0, Data := "a" }

def wJob1 : Job := { ID := 1, Data := "b" }

def wPool0 : PoolState := initPool [wJob0, wJob1]

def wPool1 : PoolState :=
  { pending := [wJob1], inFlight := {wJob0}, results := [], closed := false }

def wPool2 : PoolState :=
  { pending := [wJob1], inFlight := 0, results := [process wJob0],
    closed := false }

def wPool3 : PoolState :=
  { pending := [], inFlight := {wJob1}, results := [process wJob0],
    closed := false }

def wPool4 : PoolState :=
  { pending := [], inFlight := 0,
    results := [process wJob0, process wJob1], closed := false }

/-- C2 witness: two submitted jobs, one worker interleaving, both results
observed exactly once. -/
theorem workerPool_drain_results_witness :
    wPool4.results.length = ([wJob0, wJob1] : List Job).length
    ∧ (wPool4.results.map Result.JobID).Perm
        (([wJob0, wJob1] : List Job).map Job.ID)
    ∧ (((([wJob0, wJob1] : List Job).map Job.ID).Nodup →
        ∀ j ∈ ([wJob0, wJob1] : List Job),
          (wPool4.results.map Result.JobID).count j.ID = 1)) :=
  workerPool_drain_results [wJob0, wJob1] wPool4
    (Relation.ReflTransGen.tail
      (Relation.ReflTransGen.tail
        (Relation.ReflTransGen.tail
          (Relation.ReflTransGen.tail Relation.ReflTransGen.refl
            (PStep.take wPool0 wJob0 [wJob1] rfl))
          (PStep.publish wPool1 wJob0 0 rfl))
        (PStep.take wPool2 wJob1 [] rfl))
      (PStep.publish wPool3 wJob1 0 rfl))
    rfl rfl

/-- C8: `Submit` fails only if the pool has already been closed — the send on
the closed `jobs` channel panics; on a pool that has not been closed it
never fails and enqueues the job. -/
theorem submit_fails_iff_closed (s : PoolState) (j : Job) :
    ((Submit s j).isOk = true ↔ s.closed = false)
    ∧ (Submit (closePool s) j).isOk = false
    ∧ (Submit s j
        = Except.ok { s with pending := s.pending ++ [j] }
       ↔ s.closed = false) := by
  cases hc : s.closed <;>
    simp [Submit, closePool, hc, Except.isOk, Except.toBool]

/-- C8 witness: on the fresh (open) pool a `Submit` succeeds, and after
`Close` it fails. -/
theorem submit_fails_iff_closed_witness :
    ((Submit (initPool []) wJob0).isOk = true
      ↔ (initPool []).closed = false)
    ∧ (Submit (closePool (initPool [])) wJob0).isOk = false
    ∧ (Submit (initPool []) wJob0
        = Except.ok { initPool [] with
            pending := (initPool []).pending ++ [wJob0] }
       ↔ (initPool []).closed = false) :=
  submit_fails_iff_closed (initPool []) wJob0

end GoLearnings
